import Mathlib

/-!
Shallow embedding of `src/src-tauri/src/proxy/mappers/openai/request.rs`
(`transform_openai_request` and `map_json_schema_to_gemini`), the
OpenAI-to-Gemini request translation of Antigravity-Manager.

Modelling conventions:
* `serde_json::Value` is embedded as the inductive `Json`; objects are
  association lists in insertion order (the crate is built with serde_json's
  `preserve_order` map, whose `insert` replaces the value in place for an
  existing key and appends for a new key; real maps hold each key at most
  once, so per-entry processing coincides with get/insert sequences).
* JSON numbers are embedded as rationals; no claim depends on float
  formatting, and `Json.toString` (used only to stringify non-string message
  content) renders numbers via `Rat`'s printer as an abstraction of serde's
  number printer.
* External collaborators that live outside this source file are parameters:
  `parse` for `serde_json::from_str` on tool-call argument strings, `sig`
  for `get_thought_signature()` (the SignatureStore read), `inj` for
  `inject_google_search_tool`, `cfg` for `resolve_request_config`'s result,
  and `uuid` for the generated `Uuid::new_v4()` string.
* Every fallible operation of the source (`unwrap` on `as_str`, the
  `as_object_mut().unwrap()` envelope mutations) is threaded through
  `Option`, so totality of the translation is a theorem, not a typing
  accident.  Byte-indexed slicing of data URLs is modelled on `List Char`;
  the cut points (the fixed ASCII prefix "data:", the first comma and the
  first semicolon) delimit the same text in both views.
-/

inductive Json where
  | null : Json
  | bool : Bool → Json
  | num : Rat → Json
  | str : String → Json
  | arr : List Json → Json
  | obj : List (String × Json) → Json

/-- First-match lookup in an object's entry list (`serde_json::Map::get`). -/
def lookupL : List (String × Json) → String → Option Json
  | [], _ => none
  | p :: rest, k => if p.1 = k then some p.2 else lookupL rest k

/-- `serde_json::Map::insert` with `preserve_order`: replace the value in
place at an existing key, append for a new key. -/
def objInsertL : List (String × Json) → String → Json → List (String × Json)
  | [], k, v => [(k, v)]
  | p :: rest, k, v => if p.1 = k then (k, v) :: rest else p :: objInsertL rest k v

/-- `serde_json::Map::remove` (keys are unique in real maps, so removing
every occurrence agrees with removing the one entry). -/
def removeKeyL : List (String × Json) → String → List (String × Json)
  | [], _ => []
  | p :: rest, k => if p.1 = k then removeKeyL rest k else p :: removeKeyL rest k

/-- Apply a function to the value stored at the first occurrence of a key
(`serde_json::Map::entry` followed by in-place mutation). -/
def mapValAt : List (String × Json) → String → (Json → Json) → List (String × Json)
  | [], _, _ => []
  | p :: rest, k, f => if p.1 = k then (k, f p.2) :: rest else p :: mapValAt rest k f

/-- `Value::get` on a string key: entry lookup on objects, `None` otherwise. -/
def Json.get? : Json → String → Option Json
  | .obj kvs, k => lookupL kvs k
  | _, _ => none

/-- `Value::as_str`. -/
def Json.asStr? : Json → Option String
  | .str s => some s
  | _ => none

/-- `Value::is_string`. -/
def Json.isString : Json → Bool
  | .str _ => true
  | _ => false

/-- `Value::as_array`. -/
def Json.asArr? : Json → Option (List Json)
  | .arr xs => some xs
  | _ => none

/-- `Value::as_object`. -/
def Json.asObj? : Json → Option (List (String × Json))
  | .obj kvs => some kvs
  | _ => none

/-- `as_object_mut()` guarded by `if let`: insert a key when the value is an
object, return the value unchanged otherwise. -/
def Json.insertKey : Json → String → Json → Json
  | .obj kvs, k, v => .obj (objInsertL kvs k v)
  | j, _, _ => j

/-- `Map::remove` lifted to values (no-op on non-objects). -/
def Json.removeKey : Json → String → Json
  | .obj kvs, k => .obj (removeKeyL kvs k)
  | j, _ => j

/-- `as_object_mut().unwrap().insert(...)`: the unwrap is a real failure
point, so this returns `Option`. -/
def insertKey? (j : Json) (k : String) (v : Json) : Option Json :=
  (j.asObj?).map (fun kvs => Json.obj (objInsertL kvs k v))

/-- JSON string escaping for the serializer (quote, backslash and the common
control characters; the exact escape set does not influence any claim). -/
def escapeChar (c : Char) : String :=
  if c = '"' then "\\\""
  else if c = '\\' then "\\\\"
  else if c = '\n' then "\\n"
  else if c = '\t' then "\\t"
  else if c = '\r' then "\\r"
  else String.singleton c

def escapeString (s : String) : String :=
  String.join (s.toList.map escapeChar)

/-- Render a JSON number (abstraction of serde's number printer; never
claim-relevant, it only feeds stringified non-string message content). -/
def ratToString (q : Rat) : String :=
  if q.den = 1 then toString q.num else toString q

mutual

/-- `Value::to_string()`: compact JSON serialization. -/
def Json.toString : Json → String
  | .null => "null"
  | .bool b => if b then "true" else "false"
  | .num q => ratToString q
  | .str s => "\"" ++ escapeString s ++ "\""
  | .arr xs => "[" ++ String.intercalate "," (jsonArrStrings xs) ++ "]"
  | .obj kvs => "\x7b" ++ String.intercalate "," (jsonObjStrings kvs) ++ "\x7d"

def jsonArrStrings : List Json → List String
  | [] => []
  | x :: xs => Json.toString x :: jsonArrStrings xs

def jsonObjStrings : List (String × Json) → List String
  | [] => []
  | p :: rest => ("\"" ++ escapeString p.1 ++ "\":" ++ Json.toString p.2) :: jsonObjStrings rest

end

/-- Boolean list-prefix test (helper for `strContains`). -/
def hasPrefixL : List Char → List Char → Bool
  | [], _ => true
  | _ :: _, [] => false
  | a :: as, b :: bs => a == b && hasPrefixL as bs

/-- Boolean list-infix test (helper for `strContains`). -/
def hasInfixL (pat : List Char) : List Char → Bool
  | [] => hasPrefixL pat []
  | b :: bs => hasPrefixL pat (b :: bs) || hasInfixL pat bs

/-- `str::contains` as substring containment. -/
def strContains (s pat : String) : Bool :=
  hasInfixL pat.toList s.toList

/-- The inline rewrite `if name == "local_shell_call" { "shell" } else { name }`
that the source repeats at every site where a function name is emitted. -/
def aliasName (name : String) : String :=
  if name = "local_shell_call" then "shell" else name

/-- The whitelist of `map_json_schema_to_gemini` (`allowed_keys` in the
source): every other key of a schema object is dropped. -/
def allowedKeys : List String :=
  ["type", "description", "properties", "required", "items", "enum", "format", "nullable"]

/-- `str::to_uppercase`, modelled characterwise (the schema `type` values
being uppercased are ASCII, where Rust's Unicode uppercase and Lean's
`Char.toUpper` agree). -/
def toUpperStr (s : String) : String :=
  String.mk (s.toList.map Char.toUpper)

/-- Uppercasing of the `type` value: the source uppercases only when the
value is a string (`get("type").and_then(as_str)`). -/
def upperIfStr : Json → Json
  | .str s => .str (toUpperStr s)
  | v => v

mutual

/-- `map_json_schema_to_gemini`: on an object, retain only whitelisted keys,
uppercase the string value of `type`, recurse into each value of
`properties` and into `items`; leave non-objects unchanged.  The source does
retain-then-uppercase-then-recurse with in-place `get_mut`; since map keys
are unique, processing each retained entry once (below) computes the same
object. -/
def mapJsonSchemaToGemini : Json → Json
  | .obj kvs => .obj (mapSchemaEntries kvs)
  | v => v

def mapSchemaEntries : List (String × Json) → List (String × Json)
  | [] => []
  | (k, v) :: rest =>
    if allowedKeys.contains k then
      (k, if k = "type" then upperIfStr v
          else if k = "properties" then mapSchemaProps v
          else if k = "items" then mapJsonSchemaToGemini v
          else v) :: mapSchemaEntries rest
    else mapSchemaEntries rest

/-- Recursion into `properties`: each property value is translated. -/
def mapSchemaProps : Json → Json
  | .obj props => .obj (mapSchemaPropEntries props)
  | v => v

def mapSchemaPropEntries : List (String × Json) → List (String × Json)
  | [] => []
  | (k, v) :: rest => (k, mapJsonSchemaToGemini v) :: mapSchemaPropEntries rest

end

/-- The `OpenAIMessage` shape that `transform_openai_request` reads
(`role`, optional `content` value, optional `tool_calls` value, optional
`tool_call_id`, optional `name`). -/
structure OpenAIMessage where
  role : String
  content : Option Json
  tool_calls : Option Json
  tool_call_id : Option String
  name : Option String

/-- The `OpenAIRequest` fields the translation consumes (plus the unused
`stream` flag); numeric overrides are optional and defaulted downstream. -/
structure OpenAIRequest where
  model : String
  messages : List OpenAIMessage
  stream : Bool
  max_tokens : Option Nat
  temperature : Option Rat
  top_p : Option Rat
  tools : Option (List Json)

/-- The four fields of `resolve_request_config`'s result that the
translation consumes (the ConfigResolver itself is an external
collaborator, so its output is a parameter). -/
structure RequestConfig where
  final_model : String
  request_type : String
  inject_google_search : Bool
  image_config : Option Json

/-- Stringify message content:
`content.map(|v| if v.is_string() { v.as_str().unwrap() } else { v.to_string() }).unwrap_or_default()`.
The guarded `unwrap` is the `asStr?` bind. -/
def contentStr? : Option Json → Option String
  | some v => if v.isString then v.asStr? else some v.toString
  | none => some ""

/-- The role table of the conversion loop: assistant maps to `model`,
tool/function and everything else map to `user`. -/
def roleOf (r : String) : String :=
  if r = "assistant" then "model"
  else if r = "tool" ∨ r = "function" then "user"
  else "user"

/-- The pre-scan that maps `tool_call_id` to the aliased function name, over
one `tool_calls` array (`HashMap::insert` overwrites, which the
prepend-and-first-match representation reproduces). -/
def indexToolCalls (acc : List (String × String)) : List Json → List (String × String)
  | [] => acc
  | call :: rest =>
    indexToolCalls
      (match (call.get? "id").bind Json.asStr?, call.get? "function" with
       | some id, some func =>
         match (func.get? "name").bind Json.asStr? with
         | some name => (id, aliasName name) :: acc
         | none => acc
       | _, _ => acc)
      rest

/-- First-match lookup in the tool-id index (`HashMap::get`). -/
def lookupName : List (String × String) → String → Option String
  | [], _ => none
  | p :: rest, k => if p.1 = k then some p.2 else lookupName rest k

/-- `ToolCallIndexer`: pre-scan all messages, indexing every well-formed
entry of every `tool_calls` array. -/
def buildToolIdMap (messages : List OpenAIMessage) : List (String × String) :=
  messages.foldl
    (fun acc msg =>
      match msg.tool_calls with
      | some tool_calls =>
        match tool_calls.asArr? with
        | some calls_arr => indexToolCalls acc calls_arr
        | none => acc
      | none => acc)
    []

/-- A `{"text": s}` part. -/
def textPart (s : String) : Json :=
  Json.obj [("text", Json.str s)]

/-- The placeholder reasoning text injected for gemini-3 targets. -/
def placeholderText : String :=
  "Thinking Process: Determining necessary tool actions."

/-- The fixed reminder appended to user-mapped text parts. -/
def textReminder : String :=
  "\n\n(SYSTEM REMINDER: You MUST use the \x27shell\x27 tool to perform this action. Do not simply state it is done.)"

/-- The fixed operational note appended to the system instruction. -/
def systemNote : String :=
  "\n\n[SYSTEM NOTE: You are a coding agent. You MUST use the provided \x27shell\x27 tool to perform ANY filesystem operations (reading, writing, creating files). Do not output JSON code blocks for tool execution; invoke the functions directly. To create a file, use the \x27shell\x27 tool with \x27New-Item\x27 or \x27Set-Content\x27 (Powershell). NEVER simulate/hallucinate actions in text without calling the tool first.]"

/-- Build one `functionCall` part: aliased name, arguments parsed from the
`arguments` string (defaulting to `"{}"` when absent and to the empty object
when unparseable), and — for index 0 only, when the store holds one — the
`thoughtSignature` sibling field. -/
def mkFuncCallPart (parse : String → Option Json) (sig : Option String) (index : Nat)
    (func : Json) : Json :=
  let raw_name := ((func.get? "name").bind Json.asStr?).getD "unknown"
  let name := aliasName raw_name
  let args_str := ((func.get? "arguments").bind Json.asStr?).getD "\x7b\x7d"
  let args := (parse args_str).getD (Json.obj [])
  let inner : List (String × Json) :=
    [("functionCall", Json.obj [("name", Json.str name), ("args", args)])]
  if index = 0 then
    match sig with
    | some s => Json.obj (objInsertL inner "thoughtSignature" (Json.str s))
    | none => Json.obj inner
  else Json.obj inner

/-- The per-call loop of the tool-calls branch: before each call, inject the
original text (first call only, when non-empty) or the placeholder thought
(whenever the mapped model contains "gemini-3"); then emit the
`functionCall` part when the entry has a `function` object. -/
def toolCallLoop (parse : String → Option Json) (sig : Option String)
    (mapped_model clean_content : String) : Nat → List Json → List Json
  | _, [] => []
  | index, call :: rest =>
    (if index = 0 ∧ clean_content ≠ "" then [textPart clean_content]
     else if strContains mapped_model "gemini-3" then [textPart placeholderText]
     else []) ++
    (match call.get? "function" with
     | some func => [mkFuncCallPart parse sig index func]
     | none => []) ++
    toolCallLoop parse sig mapped_model clean_content (index + 1) rest

/-- The tool/function-response branch: resolve the name through the indexer
when the message's `tool_call_id` is mapped, else fall back to the aliased
own `name` (or "unknown"), and wrap the stringified content. -/
def toolResponseParts? (tool_id_to_name : List (String × String)) (msg : OpenAIMessage) :
    Option (List Json) := do
  let raw_name := msg.name.getD "unknown"
  let name0 := aliasName raw_name
  let name :=
    match msg.tool_call_id with
    | some tid =>
      match lookupName tool_id_to_name tid with
      | some resolved => resolved
      | none => name0
    | none => name0
  let content_str ← contentStr? msg.content
  some [Json.obj [("functionResponse", Json.obj
    [("name", Json.str name),
     ("id", Json.str (msg.tool_call_id.getD "unknown")),
     ("response", Json.obj [("content", Json.str content_str)])])]]

/-- Index of the first occurrence of a character (models `str::find`; the
cut points used are ASCII, so char positions delimit the same text as the
source's byte positions). -/
def findCharIdx (c : Char) : List Char → Option Nat
  | [] => none
  | x :: xs => if x = c then some 0 else (findCharIdx c xs).map (· + 1)

/-- One item of a multimodal content array: text items (non-empty, with the
reminder suffix for user-mapped roles), `image_url` items decoded from a
`data:` URL into `inlineData` or passed as `fileData` for `http` URLs;
unknown item types are skipped. -/
def multimodalItemParts (role : String) (item : Json) : List Json :=
  match (item.get? "type").bind Json.asStr? with
  | some item_type =>
    if item_type = "text" then
      match (item.get? "text").bind Json.asStr? with
      | some text =>
        if text ≠ "" then
          if role = "user" then [textPart (text ++ textReminder)] else [textPart text]
        else []
      | none => []
    else if item_type = "image_url" then
      match item.get? "image_url" with
      | some img =>
        match (img.get? "url").bind Json.asStr? with
        | some url =>
          if url.startsWith "data:" then
            match findCharIdx ',' url.toList with
            | some comma_pos =>
              let header := (url.toList.drop 5).take (comma_pos - 5)
              let base64_data := url.toList.drop (comma_pos + 1)
              let mime_type :=
                match findCharIdx ';' header with
                | some semi_pos => header.take semi_pos
                | none => header
              [Json.obj [("inlineData", Json.obj
                [("mimeType", Json.str (String.mk mime_type)),
                 ("data", Json.str (String.mk base64_data))])]]
            | none => []
          else if url.startsWith "http" then
            [Json.obj [("fileData", Json.obj
              [("fileUri", Json.str url), ("mimeType", Json.str "image/jpeg")])]]
          else []
        | none => []
      | none => []
    else []
  | none => []

/-- The plain-content branch: array content is processed item by item,
string content becomes a single text part (non-empty, reminder-suffixed for
user-mapped roles); the guarded `as_str().unwrap()` is the `asStr?` map. -/
def plainParts? (role : String) (content : Option Json) : Option (List Json) :=
  match content with
  | some content =>
    match content.asArr? with
    | some content_arr => some (content_arr.foldr (fun item acc => multimodalItemParts role item ++ acc) [])
    | none =>
      if content.isString then
        (content.asStr?).map (fun content_str =>
          if content_str ≠ "" then
            if role = "user" then [textPart (content_str ++ textReminder)]
            else [textPart content_str]
          else [])
      else some []
  | none => some []

/-- The parts built for one non-system message: tool-calls branch when
`tool_calls` is present (whatever the role), else the tool/function-response
branch, else the plain-content branch. -/
def msgParts? (parse : String → Option Json) (sig : Option String)
    (tool_id_to_name : List (String × String)) (mapped_model : String)
    (msg : OpenAIMessage) : Option (List Json) :=
  match msg.tool_calls with
  | some tool_calls => do
    let original_content ← contentStr? msg.content
    let clean_content := original_content
    match tool_calls.asArr? with
    | some calls_arr => some (toolCallLoop parse sig mapped_model clean_content 0 calls_arr)
    | none => some []
  | none =>
    if msg.role = "tool" ∨ msg.role = "function" then toolResponseParts? tool_id_to_name msg
    else plainParts? (roleOf msg.role) msg.content

/-- One iteration of the conversion loop over `(contents, system_instruction)`:
a system message (re)sets the system instruction and contributes no content
entry; any other message appends a content entry exactly when its parts are
non-empty. -/
def step? (parse : String → Option Json) (sig : Option String)
    (tool_id_to_name : List (String × String)) (mapped_model : String)
    (acc : List Json × Option Json) (msg : OpenAIMessage) :
    Option (List Json × Option Json) :=
  if msg.role = "system" then do
    let content_str ← contentStr? msg.content
    some (acc.1, some (Json.obj [("parts", Json.arr [textPart (content_str ++ systemNote)])]))
  else do
    let parts ← msgParts? parse sig tool_id_to_name mapped_model msg
    if parts.isEmpty then some acc
    else
      some (acc.1 ++ [Json.obj [("role", Json.str (roleOf msg.role)), ("parts", Json.arr parts)]], acc.2)

/-- `generationConfig`: request overrides with defaults
`maxOutputTokens = 8192`, `temperature = 1.0`, `topP = 1.0`. -/
def generationConfigOf (request : OpenAIRequest) : Json :=
  Json.obj
    [("maxOutputTokens", Json.num ((request.max_tokens.getD 8192 : Nat) : Rat)),
     ("temperature", Json.num (request.temperature.getD 1)),
     ("topP", Json.num (request.top_p.getD 1))]

/-- The four fixed safety-category entries, all thresholds OFF. -/
def safetySettingsJson : Json :=
  Json.arr
    [Json.obj [("category", Json.str "HARM_CATEGORY_HARASSMENT"), ("threshold", Json.str "OFF")],
     Json.obj [("category", Json.str "HARM_CATEGORY_HATE_SPEECH"), ("threshold", Json.str "OFF")],
     Json.obj [("category", Json.str "HARM_CATEGORY_SEXUALLY_EXPLICIT"), ("threshold", Json.str "OFF")],
     Json.obj [("category", Json.str "HARM_CATEGORY_DANGEROUS_CONTENT"), ("threshold", Json.str "OFF")]]

/-- Declaration-level alias rewrite: when the declaration's `name` is the
string "local_shell_call", insert `"shell"` in its place. -/
def aliasDeclName (gemini_func : Json) : Json :=
  match (gemini_func.get? "name").bind Json.asStr? with
  | some name =>
    if name = "local_shell_call" then gemini_func.insertKey "name" (Json.str "shell")
    else gemini_func
  | none => gemini_func

/-- Insert `type: "OBJECT"` at the schema root when no `type` is present
(Gemini requires an explicit root type). -/
def ensureRootType (params : Json) : Json :=
  match params with
  | .obj kvs =>
    if (lookupL kvs "type").isNone then .obj (objInsertL kvs "type" (Json.str "OBJECT"))
    else .obj kvs
  | v => v

/-- Translate the `parameters` schema in place when present. -/
def mapParams (gemini_func : Json) : Json :=
  match gemini_func.get? "parameters" with
  | some params => gemini_func.insertKey "parameters" (mapJsonSchemaToGemini (ensureRootType params))
  | none => gemini_func

/-- One `type: "function"` tool declaration: take the wrapped `function`
object (OpenAI shape) or the tool itself stripped of
`type`/`strict`/`additionalProperties` (flat shape), alias the name, then
translate `parameters`. -/
def mapFunctionTool (tool : Json) : Json :=
  let gemini_func :=
    match tool.get? "function" with
    | some function => function
    | none => ((tool.removeKey "type").removeKey "strict").removeKey "additionalProperties"
  mapParams (aliasDeclName gemini_func)

/-- The declaration loop: entries whose `type` is the string "function"
yield one declaration each; everything else is skipped. -/
def mapToolList : List Json → List Json
  | [] => []
  | tool :: rest =>
    (match (tool.get? "type").bind Json.asStr? with
     | some tool_type => if tool_type = "function" then [mapFunctionTool tool] else []
     | none => []) ++ mapToolList rest

/-- Clean `generationConfig` for image-generation models: drop
`thinkingConfig`/`responseMimeType`/`responseModalities` and insert the
resolved `imageConfig` (objects only, like the source's guarded
`as_object_mut`). -/
def cleanGenConfigVal (image_config : Json) (gen_config : Json) : Json :=
  match gen_config with
  | .obj kvs =>
    .obj (objInsertL
      (removeKeyL (removeKeyL (removeKeyL kvs "thinkingConfig") "responseMimeType") "responseModalities")
      "imageConfig" image_config)
  | v => v

/-- The image-generation post-processing block: remove `tools` and
`systemInstruction`, then clean `generationConfig` (created empty first when
absent, as `entry(..).or_insert_with` does). -/
def applyImageConfig (image_config : Json) (inner : Json) : Json :=
  match inner with
  | .obj kvs =>
    let kvs1 := removeKeyL kvs "tools"
    let kvs2 := removeKeyL kvs1 "systemInstruction"
    let kvs3 :=
      if (lookupL kvs2 "generationConfig").isSome then kvs2
      else objInsertL kvs2 "generationConfig" (Json.obj [])
    .obj (mapValAt kvs3 "generationConfig" (cleanGenConfigVal image_config))
  | v => v

/-- The inner request up to (and including) the google-search injection:
contents and system instruction from the conversion loop, fixed generation
and safety settings, mapped tool declarations when any, then the external
search-tool injector when the config asks for it.  The two
`as_object_mut().unwrap().insert(...)` envelope mutations are the `insertKey?`
binds. -/
def innerBeforeImage? (parse : String → Option Json) (sig : Option String)
    (inj : Json → Json) (cfg : RequestConfig) (request : OpenAIRequest)
    (mapped_model : String) : Option Json := do
  let st ← request.messages.foldlM
    (step? parse sig (buildToolIdMap request.messages) mapped_model) ([], none)
  let inner0 := Json.obj
    [("contents", Json.arr st.1),
     ("generationConfig", generationConfigOf request),
     ("safetySettings", safetySettingsJson)]
  let inner1 ←
    match st.2 with
    | some si => insertKey? inner0 "systemInstruction" si
    | none => some inner0
  let inner2 ←
    match request.tools with
    | some tools =>
      let function_declarations := mapToolList tools
      if function_declarations.isEmpty then some inner1
      else
        insertKey? inner1 "tools"
          (Json.arr [Json.obj [("function_declarations", Json.arr function_declarations)]])
    | none => some inner1
  some (if cfg.inject_google_search then inj inner2 else inner2)

/-- The inner request after the image-generation post-processing. -/
def innerRequest? (parse : String → Option Json) (sig : Option String)
    (inj : Json → Json) (cfg : RequestConfig) (request : OpenAIRequest)
    (mapped_model : String) : Option Json :=
  (innerBeforeImage? parse sig inj cfg request mapped_model).map
    (fun pre =>
      match cfg.image_config with
      | some image_config => applyImageConfig image_config pre
      | none => pre)

/-- The outer envelope: project, generated request id (prefixed "openai-"),
inner request, resolved model, fixed user agent, resolved request type. -/
def envelopeOf (uuid : String) (cfg : RequestConfig) (project_id : String) (inner : Json) : Json :=
  Json.obj
    [("project", Json.str project_id),
     ("requestId", Json.str ("openai-" ++ uuid)),
     ("request", inner),
     ("model", Json.str cfg.final_model),
     ("userAgent", Json.str "antigravity-openai"),
     ("requestType", Json.str cfg.request_type)]

/-- `transform_openai_request`, with the external collaborators (argument
parser, signature store, search injector, config resolver output, generated
uuid) as parameters. -/
def transform_openai_request? (parse : String → Option Json) (sig : Option String)
    (inj : Json → Json) (uuid : String) (cfg : RequestConfig)
    (request : OpenAIRequest) (project_id mapped_model : String) : Option Json :=
  (innerRequest? parse sig inj cfg request mapped_model).map (envelopeOf uuid cfg project_id)

/-- Key lookup through an optional value (statement helper). -/
def jpath (j : Option Json) (k : String) : Option Json :=
  j.bind (fun x => x.get? k)

/-- Array indexing through an optional value (statement helper). -/
def jidx (j : Option Json) (n : Nat) : Option Json :=
  j.bind (fun x => (x.asArr?).bind (fun xs => xs[n]?))

/-- The parts injected before the call at a given index: the original text
(index 0 only, when non-empty), else the placeholder thought whenever the
mapped model contains "gemini-3" — at every index. -/
def c1LeadParts (mapped_model clean_content : String) (index : Nat) : List Json :=
  if index = 0 ∧ clean_content ≠ "" then [textPart clean_content]
  else if strContains mapped_model "gemini-3" then [textPart placeholderText]
  else []

/-- The `functionCall` part emitted for the call at a given index (none when
the entry has no `function` object). -/
def c1CallParts (parse : String → Option Json) (sig : Option String) (index : Nat)
    (call : Json) : List Json :=
  match call.get? "function" with
  | some func => [mkFuncCallPart parse sig index func]
  | none => []

/-- Index-explicit form of the per-call loop over an enumerated call list. -/
def c1Flatten (parse : String → Option Json) (sig : Option String)
    (mapped_model clean_content : String) : List (Nat × Json) → List Json
  | [] => []
  | p :: rest =>
    c1LeadParts mapped_model clean_content p.1 ++ c1CallParts parse sig p.1 p.2 ++
      c1Flatten parse sig mapped_model clean_content rest

/-- Whether a part carries the `thoughtSignature` field. -/
def hasThoughtSig (part : Json) : Bool :=
  (part.get? "thoughtSignature").isSome

/-- Per-entry action of the schema translation on a retained key:
uppercase `type`, recurse into `properties` values and into `items`, keep
every other whitelisted value as is. -/
def c6Entry (p : String × Json) : String × Json :=
  (p.1,
   if p.1 = "type" then upperIfStr p.2
   else if p.1 = "properties" then mapSchemaProps p.2
   else if p.1 = "items" then mapJsonSchemaToGemini p.2
   else p.2)

/-- The resolved function-response name: the indexer's entry for the
message's `tool_call_id` when present and mapped, else the aliased own
`name` (defaulted to "unknown"). -/
def respNameOf (tool_id_to_name : List (String × String)) (msg : OpenAIMessage) : String :=
  (msg.tool_call_id.bind (lookupName tool_id_to_name)).getD
    (aliasName (msg.name.getD "unknown"))

/-- A `functionResponse` part (statement helper, matching the built shape). -/
def funcRespPart (name id content : String) : Json :=
  Json.obj [("functionResponse", Json.obj
    [("name", Json.str name), ("id", Json.str id),
     ("response", Json.obj [("content", Json.str content)])])]

/-- A well-formed tool-call entry (concrete-input helper). -/
def exCall (id name : String) : Json :=
  Json.obj [("id", Json.str id),
            ("function", Json.obj [("name", Json.str name), ("arguments", Json.str "\x7b\x7d")])]

/-- A request skeleton with the given messages and no overrides. -/
def exReq (msgs : List OpenAIMessage) : OpenAIRequest :=
  { model := "gpt-4", messages := msgs, stream := false,
    max_tokens := none, temperature := none, top_p := none, tools := none }

/-- A resolver output with no grounding and no image config. -/
def exCfg : RequestConfig :=
  ⟨"final-model", "req-type", false, none⟩

theorem lookupL_objInsertL_self (l : List (String × Json)) (k : String) (v : Json) :
    lookupL (objInsertL l k v) k = some v := by
  induction l with
  | nil => simp [objInsertL, lookupL]
  | cons p rest ih =>
    by_cases h : p.1 = k
    · simp [objInsertL, h, lookupL]
    · simp [objInsertL, h, lookupL, ih]

theorem lookupL_objInsertL_ne (l : List (String × Json)) (k k2 : String) (v : Json)
    (h : k ≠ k2) : lookupL (objInsertL l k v) k2 = lookupL l k2 := by
  induction l with
  | nil => simp [objInsertL, lookupL, h]
  | cons p rest ih =>
    by_cases hp : p.1 = k
    · simp [objInsertL, hp, lookupL, h]
    · simp only [objInsertL, hp, if_false, lookupL]
      by_cases hq : p.1 = k2
      · simp [hq]
      · simp [hq, ih]

theorem lookupL_removeKeyL_self (l : List (String × Json)) (k : String) :
    lookupL (removeKeyL l k) k = none := by
  induction l with
  | nil => simp [removeKeyL, lookupL]
  | cons p rest ih =>
    by_cases h : p.1 = k
    · simp [removeKeyL, h, ih]
    · simp [removeKeyL, h, lookupL, ih]

theorem lookupL_removeKeyL_ne (l : List (String × Json)) (k k2 : String)
    (h : k ≠ k2) : lookupL (removeKeyL l k) k2 = lookupL l k2 := by
  induction l with
  | nil => simp [removeKeyL]
  | cons p rest ih =>
    by_cases hp : p.1 = k
    · have : ¬ p.1 = k2 := by rw [hp]; exact h
      simp [removeKeyL, hp, lookupL, this, ih, h]
    · simp only [removeKeyL, hp, if_false, lookupL]
      by_cases hq : p.1 = k2
      · simp [hq]
      · simp [hq, ih]

theorem lookupL_mapValAt_self (l : List (String × Json)) (k : String) (f : Json → Json) :
    lookupL (mapValAt l k f) k = (lookupL l k).map f := by
  induction l with
  | nil => simp [mapValAt, lookupL]
  | cons p rest ih =>
    by_cases h : p.1 = k
    · simp [mapValAt, h, lookupL]
    · simp [mapValAt, h, lookupL, ih]

theorem lookupL_mapValAt_ne (l : List (String × Json)) (k k2 : String) (f : Json → Json)
    (h : k ≠ k2) : lookupL (mapValAt l k f) k2 = lookupL l k2 := by
  induction l with
  | nil => simp [mapValAt]
  | cons p rest ih =>
    by_cases hp : p.1 = k
    · have : ¬ p.1 = k2 := by rw [hp]; exact h
      simp [mapValAt, hp, lookupL, this, h]
    · simp only [mapValAt, hp, if_false, lookupL]
      by_cases hq : p.1 = k2
      · simp [hq]
      · simp [hq, ih]

theorem contentStr?_isSome (c : Option Json) : (contentStr? c).isSome := by
  cases c with
  | none => rfl
  | some v => cases v <;> simp [contentStr?, Json.isString, Json.asStr?]

theorem toolResponseParts?_isSome (m : List (String × String)) (msg : OpenAIMessage) :
    (toolResponseParts? m msg).isSome := by
  obtain ⟨cs, hcs⟩ := Option.isSome_iff_exists.mp (contentStr?_isSome msg.content)
  simp [toolResponseParts?, hcs]

theorem plainParts?_isSome (role : String) (c : Option Json) :
    (plainParts? role c).isSome := by
  cases c with
  | none => rfl
  | some v => cases v <;> simp [plainParts?, Json.asArr?, Json.isString, Json.asStr?]

theorem msgParts?_isSome (parse : String → Option Json) (sig : Option String)
    (m : List (String × String)) (mapped_model : String) (msg : OpenAIMessage) :
    (msgParts? parse sig m mapped_model msg).isSome := by
  obtain ⟨r, c, tcs, tid, nm⟩ := msg
  cases tcs with
  | some tc =>
    obtain ⟨cs, hcs⟩ := Option.isSome_iff_exists.mp (contentStr?_isSome c)
    cases tc <;> simp [msgParts?, hcs, Json.asArr?]
  | none =>
    by_cases h : r = "tool" ∨ r = "function"
    · simpa [msgParts?, h] using toolResponseParts?_isSome m ⟨r, c, none, tid, nm⟩
    · simpa [msgParts?, h] using plainParts?_isSome (roleOf r) c

theorem step?_isSome (parse : String → Option Json) (sig : Option String)
    (m : List (String × String)) (mapped_model : String)
    (acc : List Json × Option Json) (msg : OpenAIMessage) :
    (step? parse sig m mapped_model acc msg).isSome := by
  by_cases h : msg.role = "system"
  · obtain ⟨cs, hcs⟩ := Option.isSome_iff_exists.mp (contentStr?_isSome msg.content)
    simp [step?, h, hcs]
  · obtain ⟨parts, hp⟩ :=
      Option.isSome_iff_exists.mp (msgParts?_isSome parse sig m mapped_model msg)
    by_cases he : parts.isEmpty <;> simp [step?, h, hp, he]

theorem foldlM_step_isSome (parse : String → Option Json) (sig : Option String)
    (m : List (String × String)) (mapped_model : String)
    (msgs : List OpenAIMessage) (acc : List Json × Option Json) :
    (msgs.foldlM (step? parse sig m mapped_model) acc).isSome := by
  induction msgs generalizing acc with
  | nil => rfl
  | cons msg rest ih =>
    obtain ⟨acc2, h2⟩ :=
      Option.isSome_iff_exists.mp (step?_isSome parse sig m mapped_model acc msg)
    simp only [List.foldlM, h2, Option.bind_eq_bind, Option.some_bind]
    exact ih acc2

theorem innerBeforeImage?_isSome (parse : String → Option Json) (sig : Option String)
    (inj : Json → Json) (cfg : RequestConfig) (request : OpenAIRequest)
    (mapped_model : String) :
    (innerBeforeImage? parse sig inj cfg request mapped_model).isSome := by
  obtain ⟨st, hst⟩ := Option.isSome_iff_exists.mp
    (foldlM_step_isSome parse sig (buildToolIdMap request.messages) mapped_model
      request.messages ([], none))
  cases htools : request.tools with
  | none =>
    cases hsi : st.2 <;>
      simp [innerBeforeImage?, hst, hsi, htools, insertKey?, Json.asObj?]
  | some tools =>
    cases hsi : st.2 <;> by_cases he : (mapToolList tools).isEmpty <;>
      simp [innerBeforeImage?, hst, hsi, htools, he, insertKey?, Json.asObj?]

theorem innerRequest?_isSome (parse : String → Option Json) (sig : Option String)
    (inj : Json → Json) (cfg : RequestConfig) (request : OpenAIRequest)
    (mapped_model : String) :
    (innerRequest? parse sig inj cfg request mapped_model).isSome := by
  obtain ⟨pre, hp⟩ := Option.isSome_iff_exists.mp
    (innerBeforeImage?_isSome parse sig inj cfg request mapped_model)
  simp [innerRequest?, hp]

/-- C7: the translation is total — for every input request (arbitrary
content values, absent names, non-string content, malformed tool-call
entries, absent numeric fields), every resolver output, signature-store
value, argument parser, injector and generated id, `transform_openai_request?`
produces an envelope: no failure escapes, every guarded unwrap succeeds and
every parse is defaulted. -/
theorem c7_translation_total (parse : String → Option Json) (sig : Option String)
    (inj : Json → Json) (uuid : String) (cfg : RequestConfig)
    (request : OpenAIRequest) (project_id mapped_model : String) :
    (transform_openai_request? parse sig inj uuid cfg request project_id mapped_model).isSome := by
  obtain ⟨inner, h⟩ := Option.isSome_iff_exists.mp
    (innerRequest?_isSome parse sig inj cfg request mapped_model)
  simp [transform_openai_request?, h]

/-- C10: for a fixed request, project id, mapped model, resolved
configuration, signature-store value (and fixed external parser/injector),
two runs differing only in the generated uuid produce envelopes equal in
project, model, userAgent, requestType and the entire inner request; they
can differ only in `requestId`. -/
theorem c10_determinism (parse : String → Option Json) (sig : Option String)
    (inj : Json → Json) (cfg : RequestConfig) (request : OpenAIRequest)
    (project_id mapped_model u1 u2 : String) :
    ∃ e1 e2,
      transform_openai_request? parse sig inj u1 cfg request project_id mapped_model = some e1 ∧
      transform_openai_request? parse sig inj u2 cfg request project_id mapped_model = some e2 ∧
      e1.get? "project" = e2.get? "project" ∧
      e1.get? "model" = e2.get? "model" ∧
      e1.get? "userAgent" = e2.get? "userAgent" ∧
      e1.get? "requestType" = e2.get? "requestType" ∧
      e1.get? "request" = e2.get? "request" ∧
      e1.removeKey "requestId" = e2.removeKey "requestId" := by
  obtain ⟨inner, h⟩ := Option.isSome_iff_exists.mp
    (innerRequest?_isSome parse sig inj cfg request mapped_model)
  refine ⟨envelopeOf u1 cfg project_id inner, envelopeOf u2 cfg project_id inner,
    by simp [transform_openai_request?, h], by simp [transform_openai_request?, h],
    ?_, ?_, ?_, ?_, ?_, ?_⟩ <;>
    simp [envelopeOf, Json.get?, lookupL, Json.removeKey, removeKeyL]

/-- C1 counterexample: an assistant message with two tool calls, no original
text, and a mapped model containing "gemini-3" gets the placeholder
"thinking" text part injected before the second (index 1) `functionCall`
part as well — the part at position 2 is the placeholder and the part at
position 3 is the second call, refuting "no placeholder text part is
injected before calls with index greater than 0". -/
theorem c1_counterexample :
    msgParts? (fun _ => none) none [] "gemini-3-pro"
        ⟨"assistant", none, some (Json.arr [exCall "a" "f", exCall "b" "g"]), none, none⟩
      = some [textPart placeholderText,
              Json.obj [("functionCall", Json.obj [("name", Json.str "f"), ("args", Json.obj [])])],
              textPart placeholderText,
              Json.obj [("functionCall", Json.obj [("name", Json.str "g"), ("args", Json.obj [])])]] ∧
    (msgParts? (fun _ => none) none [] "gemini-3-pro"
        ⟨"assistant", none, some (Json.arr [exCall "a" "f", exCall "b" "g"]), none, none⟩).bind
      (fun parts => parts[2]?) = some (textPart placeholderText) ∧
    (msgParts? (fun _ => none) none [] "gemini-3-pro"
        ⟨"assistant", none, some (Json.arr [exCall "a" "f", exCall "b" "g"]), none, none⟩).bind
      (fun parts => parts[3]?)
      = some (Json.obj [("functionCall", Json.obj [("name", Json.str "g"), ("args", Json.obj [])])]) :=
  ⟨rfl, rfl, rfl⟩

/-- C1 (amended): before the call at index 0 the original message text is
injected when non-empty, and otherwise the placeholder "thinking" text part
is injected exactly when the mapped model name contains "gemini-3"; before
every call with index greater than 0 the placeholder is injected exactly
when the mapped model name contains "gemini-3" (regardless of original
text), as the index-explicit `c1LeadParts`/`c1Flatten` form states. -/
theorem c1_amended_placeholder (parse : String → Option Json) (sig : Option String)
    (mapped_model clean_content : String) (i : Nat) (calls : List Json) :
    toolCallLoop parse sig mapped_model clean_content i calls
      = c1Flatten parse sig mapped_model clean_content (calls.enumFrom i) := by
  induction calls generalizing i with
  | nil => rfl
  | cons c rest ih =>
    simp [toolCallLoop, List.enumFrom, c1Flatten, c1LeadParts, c1CallParts, ih,
      List.append_assoc]

theorem hasThoughtSig_textPart (s : String) : hasThoughtSig (textPart s) = false := rfl

theorem hasThoughtSig_mkFuncCallPart_succ (parse : String → Option Json) (sig : Option String)
    (i : Nat) (func : Json) : hasThoughtSig (mkFuncCallPart parse sig (i + 1) func) = false := by
  simp [mkFuncCallPart, hasThoughtSig, Json.get?, lookupL]

theorem hasThoughtSig_mkFuncCallPart_none (parse : String → Option Json)
    (i : Nat) (func : Json) : hasThoughtSig (mkFuncCallPart parse none i func) = false := by
  by_cases h : i = 0 <;> simp [mkFuncCallPart, h, hasThoughtSig, Json.get?, lookupL]

theorem countP_sig_toolCallLoop_succ (parse : String → Option Json) (sig : Option String)
    (mapped_model clean_content : String) (calls : List Json) (i : Nat) :
    List.countP hasThoughtSig
      (toolCallLoop parse sig mapped_model clean_content (i + 1) calls) = 0 := by
  induction calls generalizing i with
  | nil => rfl
  | cons c rest ih =>
    cases hf : c.get? "function" with
    | none =>
      by_cases hg : strContains mapped_model "gemini-3" <;>
        simp [toolCallLoop, hf, hg, List.countP_append, hasThoughtSig_textPart, ih]
    | some func =>
      by_cases hg : strContains mapped_model "gemini-3" <;>
        simp [toolCallLoop, hf, hg, List.countP_append, hasThoughtSig_textPart,
          hasThoughtSig_mkFuncCallPart_succ, ih]

theorem countP_sig_toolCallLoop_none (parse : String → Option Json)
    (mapped_model clean_content : String) (calls : List Json) (i : Nat) :
    List.countP hasThoughtSig
      (toolCallLoop parse none mapped_model clean_content i calls) = 0 := by
  induction calls generalizing i with
  | nil => rfl
  | cons c rest ih =>
    have hlead : ∀ b : Bool, List.countP hasThoughtSig
        (if i = 0 ∧ clean_content ≠ "" then [textPart clean_content]
         else if b = true then [textPart placeholderText] else []) = 0 := by
      intro b
      by_cases h1 : i = 0 ∧ clean_content ≠ "" <;> cases b <;>
        simp [h1, hasThoughtSig_textPart]
    cases hf : c.get? "function" with
    | none => simp [toolCallLoop, hf, List.countP_append, hlead, ih]
    | some func =>
      simp [toolCallLoop, hf, List.countP_append, hlead, ih,
        hasThoughtSig_mkFuncCallPart_none]

/-- C3: within one message's tool calls, at most one emitted part carries a
`thoughtSignature` (every part built from call index ≥ 1 lacks the field,
and with no stored signature no part at all has it); concretely, with stored
signature "SIG123" and two calls, the first `functionCall` part carries
`thoughtSignature = "SIG123"` and the second carries no such field. -/
theorem c3_first_call_only_signature :
    (∀ (parse : String → Option Json) (sig : Option String)
       (mapped_model clean_content : String) (calls : List Json) (i : Nat),
       List.countP hasThoughtSig
         (toolCallLoop parse sig mapped_model clean_content (i + 1) calls) = 0) ∧
    (∀ (parse : String → Option Json) (sig : Option String)
       (mapped_model clean_content : String) (calls : List Json),
       List.countP hasThoughtSig
         (toolCallLoop parse sig mapped_model clean_content 0 calls) ≤ 1) ∧
    (∀ (parse : String → Option Json) (mapped_model clean_content : String)
       (calls : List Json) (i : Nat),
       List.countP hasThoughtSig
         (toolCallLoop parse none mapped_model clean_content i calls) = 0) ∧
    toolCallLoop (fun _ => none) (some "SIG123") "gpt-like" "" 0 [exCall "a" "f", exCall "b" "g"]
      = [Json.obj [("functionCall", Json.obj [("name", Json.str "f"), ("args", Json.obj [])]),
                   ("thoughtSignature", Json.str "SIG123")],
         Json.obj [("functionCall", Json.obj [("name", Json.str "g"), ("args", Json.obj [])])]] ∧
    (Json.obj [("functionCall", Json.obj [("name", Json.str "f"), ("args", Json.obj [])]),
               ("thoughtSignature", Json.str "SIG123")]).get? "thoughtSignature"
      = some (Json.str "SIG123") ∧
    (Json.obj [("functionCall", Json.obj [("name", Json.str "g"), ("args", Json.obj [])])]).get?
        "thoughtSignature" = none := by
  refine ⟨countP_sig_toolCallLoop_succ, ?_, countP_sig_toolCallLoop_none, rfl, rfl, rfl⟩
  intro parse sig mapped_model clean_content calls
  cases calls with
  | nil => simp [toolCallLoop]
  | cons c rest =>
    have hrest1 : List.countP hasThoughtSig
        (toolCallLoop parse sig mapped_model clean_content 1 rest) = 0 :=
      countP_sig_toolCallLoop_succ parse sig mapped_model clean_content rest 0
    have hlead : List.countP hasThoughtSig
        (if 0 = 0 ∧ clean_content ≠ "" then [textPart clean_content]
         else if strContains mapped_model "gemini-3" = true then [textPart placeholderText]
         else []) = 0 := by
      by_cases h1 : 0 = 0 ∧ clean_content ≠ ""
      · rw [if_pos h1]; simp [hasThoughtSig_textPart]
      · rw [if_neg h1]
        by_cases hg : strContains mapped_model "gemini-3" = true
        · rw [if_pos hg]; simp [hasThoughtSig_textPart]
        · rw [if_neg hg]; rfl
    have hfc : List.countP hasThoughtSig
        (match c.get? "function" with
         | some func => [mkFuncCallPart parse sig 0 func]
         | none => []) ≤ 1 := by
      cases hf : c.get? "function" with
      | none => simp
      | some func =>
        exact le_trans (List.countP_le_length _) (by simp)
    calc List.countP hasThoughtSig (toolCallLoop parse sig mapped_model clean_content 0 (c :: rest))
        = List.countP hasThoughtSig
            (if 0 = 0 ∧ clean_content ≠ "" then [textPart clean_content]
             else if strContains mapped_model "gemini-3" = true then [textPart placeholderText]
             else []) +
          (List.countP hasThoughtSig
            (match c.get? "function" with
             | some func => [mkFuncCallPart parse sig 0 func]
             | none => []) +
           List.countP hasThoughtSig (toolCallLoop parse sig mapped_model clean_content 1 rest)) := by
          simp [toolCallLoop, List.countP_append]
      _ ≤ 1 := by rw [hlead, hrest1]; simpa using hfc

/-- C4: everywhere a function name is emitted — `functionCall` parts, the
tool-id index feeding `functionResponse` parts, the response-name fallback,
and tool declarations — the literal "local_shell_call" is rewritten to
"shell" and every other name passes through unchanged (the rewritten
`parameters` translation never touches the declaration's name). -/
theorem c4_alias_invariance :
    (∀ n : String, aliasName n = if n = "local_shell_call" then "shell" else n) ∧
    (∀ (parse : String → Option Json) (sig : Option String) (i : Nat) (func : Json),
       ((mkFuncCallPart parse sig i func).get? "functionCall").bind (fun fc => fc.get? "name")
         = some (Json.str (aliasName (((func.get? "name").bind Json.asStr?).getD "unknown")))) ∧
    (∀ (r : String) (cid nm : Option String) (id name : String) (args : Json),
       buildToolIdMap
           [⟨r, none, some (Json.arr [Json.obj [("id", Json.str id),
              ("function", Json.obj [("name", Json.str name), ("arguments", args)])]]), cid, nm⟩]
         = [(id, aliasName name)]) ∧
    (∀ (parse : String → Option Json) (sig : Option String)
       (tidmap : List (String × String)) (mapped_model nm : String),
       msgParts? parse sig tidmap mapped_model ⟨"tool", none, none, none, some nm⟩
         = some [funcRespPart (aliasName nm) "unknown" ""]) ∧
    (∀ (n : String) (rest : List (String × Json)),
       aliasDeclName (Json.obj (("name", Json.str n) :: rest))
         = Json.obj (("name", Json.str (aliasName n)) :: rest)) ∧
    (∀ g : Json, (mapParams g).get? "name" = g.get? "name") := by
  refine ⟨fun n => rfl, ?_, fun r cid nm id name args => rfl, fun parse sig tidmap mm nm => rfl,
    ?_, ?_⟩
  · intro parse sig i func
    by_cases hi : i = 0
    · cases sig with
      | none => simp [mkFuncCallPart, hi, Json.get?, lookupL]
      | some s => simp [mkFuncCallPart, hi, Json.get?, lookupL, objInsertL]
    · simp [mkFuncCallPart, hi, Json.get?, lookupL]
  · intro n rest
    by_cases h : n = "local_shell_call" <;>
      simp [aliasDeclName, Json.get?, lookupL, Json.asStr?, h, Json.insertKey, objInsertL,
        aliasName]
  · intro g
    cases hp : g.get? "parameters" with
    | none => simp [mapParams, hp]
    | some params =>
      cases g with
      | obj kvs =>
        simp only [Json.get?] at hp
        simp only [mapParams, Json.get?, hp, Json.insertKey]
        exact lookupL_objInsertL_ne kvs "parameters" "name" _ (by decide)
      | null => simp [Json.get?] at hp
      | bool b => simp [Json.get?] at hp
      | num q => simp [Json.get?] at hp
      | str s => simp [Json.get?] at hp
      | arr xs => simp [Json.get?] at hp

theorem mapSchemaEntries_eq_filterMap (kvs : List (String × Json)) :
    mapSchemaEntries kvs = (kvs.filter (fun p => allowedKeys.contains p.1)).map c6Entry := by
  induction kvs with
  | nil => simp [mapSchemaEntries]
  | cons p rest ih =>
    obtain ⟨k, v⟩ := p
    by_cases h : k ∈ allowedKeys <;>
      simp [mapSchemaEntries, List.filter_cons, h, c6Entry, ih]

theorem mapSchemaPropEntries_eq_map (props : List (String × Json)) :
    mapSchemaPropEntries props = props.map (fun p => (p.1, mapJsonSchemaToGemini p.2)) := by
  induction props with
  | nil => simp [mapSchemaPropEntries]
  | cons p rest ih =>
    obtain ⟨k, v⟩ := p
    simp [mapSchemaPropEntries, ih]

/-- C6: the schema translation keeps, for every object node, exactly the
keys that lie in the whitelist (in order), applying `c6Entry` to each kept
entry — which uppercases the string value of `type` and recurses through
each value of `properties` and through `items`; in particular the node
`{"type":"integer","default":5,"additionalProperties":false}` translates to
exactly `{"type":"INTEGER"}`. -/
theorem c6_schema_whitelist :
    (∀ kvs : List (String × Json),
       mapJsonSchemaToGemini (Json.obj kvs)
         = Json.obj ((kvs.filter (fun p => allowedKeys.contains p.1)).map c6Entry)) ∧
    (∀ props : List (String × Json),
       mapSchemaProps (Json.obj props)
         = Json.obj (props.map (fun p => (p.1, mapJsonSchemaToGemini p.2)))) ∧
    (∀ s : String, upperIfStr (Json.str s) = Json.str (toUpperStr s)) ∧
    mapJsonSchemaToGemini
        (Json.obj [("type", Json.str "integer"), ("default", Json.num 5),
          ("additionalProperties", Json.bool false)])
      = Json.obj [("type", Json.str "INTEGER")] := by
  refine ⟨?_, ?_, fun s => rfl, ?_⟩
  · intro kvs
    simp [mapJsonSchemaToGemini, mapSchemaEntries_eq_filterMap]
  · intro props
    simp [mapSchemaProps, mapSchemaPropEntries_eq_map]
  · simp [mapJsonSchemaToGemini, mapSchemaEntries, allowedKeys, upperIfStr]
    rfl

theorem aliasName_idem (n : String) : aliasName (aliasName n) = aliasName n := by
  by_cases h : n = "local_shell_call" <;> simp [aliasName, h]

theorem indexToolCalls_alias (calls : List Json) :
    ∀ (acc : List (String × String)) (p : String × String),
      (∀ q ∈ acc, aliasName q.2 = q.2) → p ∈ indexToolCalls acc calls →
      aliasName p.2 = p.2 := by
  induction calls with
  | nil =>
    intro acc p hacc hp
    rw [indexToolCalls] at hp
    exact hacc p hp
  | cons c rest ih =>
    intro acc p hacc hp
    rw [indexToolCalls] at hp
    refine ih _ p ?_ hp
    intro q hq
    rcases h1 : (c.get? "id").bind Json.asStr? with _ | id <;>
      rcases h2 : c.get? "function" with _ | func <;>
        simp only [h1, h2] at hq
    · exact hacc q hq
    · exact hacc q hq
    · exact hacc q hq
    · rcases h3 : (func.get? "name").bind Json.asStr? with _ | name <;>
        simp only [h3] at hq
      · exact hacc q hq
      · cases hq with
        | head => exact aliasName_idem name
        | tail _ hq2 => exact hacc q hq2

theorem buildToolIdMap_alias (msgs : List OpenAIMessage) (p : String × String)
    (hp : p ∈ buildToolIdMap msgs) : aliasName p.2 = p.2 := by
  suffices h : ∀ (ms : List OpenAIMessage) (acc : List (String × String)),
      (∀ q ∈ acc, aliasName q.2 = q.2) →
      ∀ q ∈ ms.foldl (fun acc msg =>
        match msg.tool_calls with
        | some tool_calls =>
          match tool_calls.asArr? with
          | some calls_arr => indexToolCalls acc calls_arr
          | none => acc
        | none => acc) acc, aliasName q.2 = q.2 by
    exact h msgs [] (by intro q hq; cases hq) p hp
  intro ms
  induction ms with
  | nil => intro acc hacc q hq; exact hacc q hq
  | cons m rest ih =>
    intro acc hacc q hq
    simp only [List.foldl_cons] at hq
    refine ih _ ?_ q hq
    rcases hm : m.tool_calls with _ | tc
    · simpa [hm] using hacc
    · rcases ha : tc.asArr? with _ | arr
      · simpa [hm, ha] using hacc
      · simp only [hm, ha]
        intro r hr
        exact indexToolCalls_alias arr acc r hacc hr

/-- C2: a tool/function-role message (no tool_calls of its own) emits one
`functionResponse` part whose name is the indexer's mapping for the
message's `tool_call_id` when one exists and the aliased own `name` field
otherwise (`respNameOf`); every name stored in the indexer already carries
the alias rewrite; concretely, a prior tool call `{id:"c1", name:"search"}`
followed by a tool message `{tool_call_id:"c1", name: null}` yields
`functionResponse.name = "search"` through the whole translation. -/
theorem c2_response_name_resolution :
    (∀ (parse : String → Option Json) (sig : Option String)
       (m : List (String × String)) (mapped_model : String) (msg : OpenAIMessage),
       msg.tool_calls = none → (msg.role = "tool" ∨ msg.role = "function") →
       msgParts? parse sig m mapped_model msg
         = some [funcRespPart (respNameOf m msg) (msg.tool_call_id.getD "unknown")
             ((contentStr? msg.content).getD "")]) ∧
    (∀ (msgs : List OpenAIMessage) (p : String × String),
       p ∈ buildToolIdMap msgs → aliasName p.2 = p.2) ∧
    jpath (jpath (jidx (jpath (jidx (jpath (jpath
        (transform_openai_request? (fun _ => none) none id "u" exCfg
          (exReq [⟨"assistant", none, some (Json.arr [exCall "c1" "search"]), none, none⟩,
                  ⟨"tool", some (Json.str "result"), none, some "c1", none⟩])
          "p" "gemini-2.5") "request") "contents") 1) "parts") 0) "functionResponse") "name"
      = some (Json.str "search") := by
  refine ⟨?_, buildToolIdMap_alias, rfl⟩
  intro parse sig m mapped_model msg htc hrole
  obtain ⟨r, c, tcs, tid, nm⟩ := msg
  cases tcs with
  | some tc => exact absurd htc (by simp)
  | none =>
    obtain ⟨cs, hcs⟩ := Option.isSome_iff_exists.mp (contentStr?_isSome c)
    simp only [msgParts?]
    rw [if_pos hrole]
    cases tid with
    | none => simp [toolResponseParts?, hcs, funcRespPart, respNameOf]
    | some t =>
      cases hl : lookupName m t <;>
        simp [toolResponseParts?, hcs, funcRespPart, respNameOf, hl]

/-- Witness for C2: concrete resolution through the indexer mapping. -/
theorem c2_response_name_resolution_witness :
    msgParts? (fun _ => none) none [("c1", "search")] "m"
        ⟨"tool", some (Json.str "out"), none, some "c1", none⟩
      = some [funcRespPart "search" "c1" "out"] := by
  have h := c2_response_name_resolution.1 (fun _ => none) none [("c1", "search")] "m"
    ⟨"tool", some (Json.str "out"), none, some "c1", none⟩ rfl (Or.inl rfl)
  simpa [respNameOf, lookupName, contentStr?, Json.isString, Json.asStr?] using h

/-- C5 counterexample: a tool-role message whose content is the empty string
and which has no tool calls still produces a content entry (its
`functionResponse` part is built unconditionally), refuting "no content
entry is produced" for every such message. -/
theorem c5_counterexample :
    jpath (jpath (transform_openai_request? (fun _ => none) none id "u" exCfg
        (exReq [⟨"tool", some (Json.str ""), none, none, none⟩]) "p" "g") "request") "contents"
      = some (Json.arr [Json.obj [("role", Json.str "user"),
          ("parts", Json.arr [funcRespPart "unknown" "unknown" ""])]]) := rfl

/-- C5 (amended): a message whose content is the empty string, which has no
tool calls, and whose role is not system/tool/function produces no content
entry; in general a non-system message contributes a content entry exactly
when its built parts list is non-empty (tool/function-role messages always
build one `functionResponse` part, so they always contribute). -/
theorem c5_empty_drop_amended :
    (∀ (parse : String → Option Json) (sig : Option String)
       (m : List (String × String)) (mapped_model : String)
       (msg : OpenAIMessage) (acc : List Json × Option Json),
       msg.role ≠ "system" → msg.role ≠ "tool" → msg.role ≠ "function" →
       msg.content = some (Json.str "") → msg.tool_calls = none →
       step? parse sig m mapped_model acc msg = some acc) ∧
    (∀ (parse : String → Option Json) (sig : Option String)
       (m : List (String × String)) (mapped_model : String)
       (msg : OpenAIMessage) (acc : List Json × Option Json) (parts : List Json),
       msg.role ≠ "system" →
       msgParts? parse sig m mapped_model msg = some parts →
       step? parse sig m mapped_model acc msg
         = some (if parts.isEmpty then acc
                 else (acc.1 ++ [Json.obj [("role", Json.str (roleOf msg.role)),
                        ("parts", Json.arr parts)]], acc.2))) := by
  constructor
  · intro parse sig m mapped_model msg acc h1 h2 h3 hc htc
    obtain ⟨r, c, tcs, tid, nm⟩ := msg
    simp only at h1 h2 h3 hc htc
    subst hc
    subst htc
    have hor : ¬ (r = "tool" ∨ r = "function") := by
      rintro (h | h) <;> contradiction
    simp [step?, h1, msgParts?, hor, plainParts?, Json.asArr?, Json.isString, Json.asStr?]
  · intro parse sig m mapped_model msg acc parts h1 hmp
    by_cases he : parts.isEmpty <;> simp [step?, h1, hmp, he]

/-- Witness for C5 (amended): a user message with empty-string content and
no tool calls leaves the accumulated contents unchanged. -/
theorem c5_empty_drop_amended_witness :
    step? (fun _ => none) none [] "m" ([], none)
        ⟨"user", some (Json.str ""), none, none, none⟩ = some ([], none) :=
  c5_empty_drop_amended.1 (fun _ => none) none [] "m"
    ⟨"user", some (Json.str ""), none, none, none⟩ ([], none)
    (by decide) (by decide) (by decide) rfl rfl

theorem mkFuncCallPart_parse_congr (p q : String → Option Json)
    (h : ∀ s, (p s).getD (Json.obj []) = (q s).getD (Json.obj []))
    (sig : Option String) (i : Nat) (func : Json) :
    mkFuncCallPart p sig i func = mkFuncCallPart q sig i func := by
  simp only [mkFuncCallPart, h]

theorem toolCallLoop_parse_congr (p q : String → Option Json)
    (h : ∀ s, (p s).getD (Json.obj []) = (q s).getD (Json.obj []))
    (sig : Option String) (mapped_model clean_content : String) (calls : List Json) (i : Nat) :
    toolCallLoop p sig mapped_model clean_content i calls
      = toolCallLoop q sig mapped_model clean_content i calls := by
  induction calls generalizing i with
  | nil => rfl
  | cons c rest ih =>
    cases hf : c.get? "function" <;>
      simp [toolCallLoop, hf, ih, mkFuncCallPart_parse_congr p q h]

theorem msgParts?_parse_congr (p q : String → Option Json)
    (h : ∀ s, (p s).getD (Json.obj []) = (q s).getD (Json.obj []))
    (sig : Option String) (m : List (String × String)) (mapped_model : String)
    (msg : OpenAIMessage) :
    msgParts? p sig m mapped_model msg = msgParts? q sig m mapped_model msg := by
  obtain ⟨r, c, tcs, tid, nm⟩ := msg
  cases tcs with
  | none => rfl
  | some tc =>
    obtain ⟨cs, hcs⟩ := Option.isSome_iff_exists.mp (contentStr?_isSome c)
    cases tc <;>
      simp [msgParts?, hcs, Json.asArr?, toolCallLoop_parse_congr p q h]

theorem step?_parse_congr (p q : String → Option Json)
    (h : ∀ s, (p s).getD (Json.obj []) = (q s).getD (Json.obj []))
    (sig : Option String) (m : List (String × String)) (mapped_model : String)
    (acc : List Json × Option Json) (msg : OpenAIMessage) :
    step? p sig m mapped_model acc msg = step? q sig m mapped_model acc msg := by
  by_cases hs : msg.role = "system"
  · simp [step?, hs]
  · simp only [step?, hs, if_false]
    rw [msgParts?_parse_congr p q h]

theorem foldlM_step_parse_congr (p q : String → Option Json)
    (h : ∀ s, (p s).getD (Json.obj []) = (q s).getD (Json.obj []))
    (sig : Option String) (m : List (String × String)) (mapped_model : String)
    (msgs : List OpenAIMessage) (acc : List Json × Option Json) :
    msgs.foldlM (step? p sig m mapped_model) acc
      = msgs.foldlM (step? q sig m mapped_model) acc := by
  induction msgs generalizing acc with
  | nil => rfl
  | cons msg rest ih =>
    simp only [List.foldlM]
    rw [step?_parse_congr p q h]
    cases step? q sig m mapped_model acc msg <;> simp [ih]

/-- C8: a tool call whose `arguments` string the parser rejects yields a
`functionCall` part carrying the empty object as `args`; moreover the whole
translation with a parser whose failures are pre-defaulted to the empty
object is identical to the translation with the raw parser, so a parse
failure is non-fatal and affects no other part of the output. -/
theorem c8_unparseable_args :
    (∀ (parse : String → Option Json) (sig : Option String) (i : Nat) (func : Json) (s : String),
       (func.get? "arguments").bind Json.asStr? = some s → parse s = none →
       ((mkFuncCallPart parse sig i func).get? "functionCall").bind (fun fc => fc.get? "args")
         = some (Json.obj [])) ∧
    (∀ (parse : String → Option Json) (sig : Option String) (inj : Json → Json)
       (uuid : String) (cfg : RequestConfig) (request : OpenAIRequest)
       (project_id mapped_model : String),
       transform_openai_request? (fun s => some ((parse s).getD (Json.obj []))) sig inj uuid cfg
           request project_id mapped_model
         = transform_openai_request? parse sig inj uuid cfg request project_id mapped_model) := by
  constructor
  · intro parse sig i func s hargs hfail
    have hstr : ((func.get? "arguments").bind Json.asStr?).getD "\x7b\x7d" = s := by
      rw [hargs]; rfl
    have hobj : ∀ kvs k, Json.get? (Json.obj kvs) k = lookupL kvs k := fun kvs k => rfl
    by_cases hi : i = 0
    · cases sig with
      | none => simp [mkFuncCallPart, hstr, hfail, hi, hobj, lookupL]
      | some sg => simp [mkFuncCallPart, hstr, hfail, hi, hobj, lookupL, objInsertL]
    · simp [mkFuncCallPart, hstr, hfail, hi, hobj, lookupL]
  · intro parse sig inj uuid cfg request project_id mapped_model
    have h : ∀ s, ((fun s => some ((parse s).getD (Json.obj []))) s).getD (Json.obj [])
        = (parse s).getD (Json.obj []) := by
      intro s
      cases hps : parse s <;> simp [hps]
    unfold transform_openai_request? innerRequest? innerBeforeImage?
    rw [foldlM_step_parse_congr _ parse h]

/-- Witness for C8: a concrete unparseable `arguments` string produces
`args = {}`. -/
theorem c8_unparseable_args_witness :
    ((mkFuncCallPart (fun _ => none) none 0
        (Json.obj [("name", Json.str "f"), ("arguments", Json.str "notjson")])).get?
          "functionCall").bind (fun fc => fc.get? "args") = some (Json.obj []) :=
  c8_unparseable_args.1 (fun _ => none) none 0
    (Json.obj [("name", Json.str "f"), ("arguments", Json.str "notjson")]) "notjson" rfl rfl

theorem innerBeforeImage?_shape (parse : String → Option Json) (sig : Option String)
    (inj : Json → Json) (cfg : RequestConfig) (request : OpenAIRequest)
    (mapped_model : String) (hs : cfg.inject_google_search = false) :
    ∃ kvs, innerBeforeImage? parse sig inj cfg request mapped_model = some (Json.obj kvs) ∧
      lookupL kvs "generationConfig" = some (generationConfigOf request) := by
  obtain ⟨st, hst⟩ := Option.isSome_iff_exists.mp
    (foldlM_step_isSome parse sig (buildToolIdMap request.messages) mapped_model
      request.messages ([], none))
  cases hsi : st.2 with
  | none =>
    cases htools : request.tools with
    | none =>
      refine ⟨[("contents", Json.arr st.1), ("generationConfig", generationConfigOf request),
        ("safetySettings", safetySettingsJson)], ?_, ?_⟩
      · simp [innerBeforeImage?, hst, hsi, htools, hs]
      · simp [lookupL]
    | some tools =>
      by_cases he : (mapToolList tools).isEmpty
      · refine ⟨[("contents", Json.arr st.1), ("generationConfig", generationConfigOf request),
          ("safetySettings", safetySettingsJson)], ?_, ?_⟩
        · simp [innerBeforeImage?, hst, hsi, htools, hs, he]
        · simp [lookupL]
      · refine ⟨objInsertL
            [("contents", Json.arr st.1), ("generationConfig", generationConfigOf request),
             ("safetySettings", safetySettingsJson)]
            "tools" (Json.arr [Json.obj [("function_declarations",
              Json.arr (mapToolList tools))]]), ?_, ?_⟩
        · simp [innerBeforeImage?, hst, hsi, htools, hs, he, insertKey?, Json.asObj?]
        · rw [lookupL_objInsertL_ne _ _ _ _ (by decide)]
          simp [lookupL]
  | some si =>
    cases htools : request.tools with
    | none =>
      refine ⟨objInsertL
          [("contents", Json.arr st.1), ("generationConfig", generationConfigOf request),
           ("safetySettings", safetySettingsJson)] "systemInstruction" si, ?_, ?_⟩
      · simp [innerBeforeImage?, hst, hsi, htools, hs, insertKey?, Json.asObj?]
      · rw [lookupL_objInsertL_ne _ _ _ _ (by decide)]
        simp [lookupL]
    | some tools =>
      by_cases he : (mapToolList tools).isEmpty
      · refine ⟨objInsertL
            [("contents", Json.arr st.1), ("generationConfig", generationConfigOf request),
             ("safetySettings", safetySettingsJson)] "systemInstruction" si, ?_, ?_⟩
        · simp [innerBeforeImage?, hst, hsi, htools, hs, he, insertKey?, Json.asObj?]
        · rw [lookupL_objInsertL_ne _ _ _ _ (by decide)]
          simp [lookupL]
      · refine ⟨objInsertL (objInsertL
            [("contents", Json.arr st.1), ("generationConfig", generationConfigOf request),
             ("safetySettings", safetySettingsJson)] "systemInstruction" si)
            "tools" (Json.arr [Json.obj [("function_declarations",
              Json.arr (mapToolList tools))]]), ?_, ?_⟩
        · simp [innerBeforeImage?, hst, hsi, htools, hs, he, insertKey?, Json.asObj?]
        · rw [lookupL_objInsertL_ne _ _ _ _ (by decide),
            lookupL_objInsertL_ne _ _ _ _ (by decide)]
          simp [lookupL]

/-- C9: the image-generation post-processing removes `tools` and
`systemInstruction`, removes `thinkingConfig`/`responseMimeType`/
`responseModalities` from `generationConfig` and inserts the resolved
`imageConfig` there, leaving every other envelope field and every other
`generationConfig` entry unchanged; when config resolution returns an
`image_config` the full translation routes its inner request through exactly
this step, so the final inner request has no `tools`/`systemInstruction` key
and carries `generationConfig.imageConfig` equal to the provided object. -/
theorem c9_image_stripping :
    (∀ (image_config : Json) (kvs g : List (String × Json)),
       lookupL kvs "generationConfig" = some (Json.obj g) →
       (applyImageConfig image_config (Json.obj kvs)).get? "tools" = none ∧
       (applyImageConfig image_config (Json.obj kvs)).get? "systemInstruction" = none ∧
       (∃ g2, (applyImageConfig image_config (Json.obj kvs)).get? "generationConfig"
           = some (Json.obj g2) ∧
         lookupL g2 "imageConfig" = some image_config ∧
         lookupL g2 "thinkingConfig" = none ∧
         lookupL g2 "responseMimeType" = none ∧
         lookupL g2 "responseModalities" = none ∧
         (∀ k, k ≠ "thinkingConfig" → k ≠ "responseMimeType" → k ≠ "responseModalities" →
           k ≠ "imageConfig" → lookupL g2 k = lookupL g k)) ∧
       (∀ k, k ≠ "tools" → k ≠ "systemInstruction" → k ≠ "generationConfig" →
         (applyImageConfig image_config (Json.obj kvs)).get? k = lookupL kvs k)) ∧
    (∀ (parse : String → Option Json) (sig : Option String) (inj : Json → Json)
       (uuid : String) (cfg : RequestConfig) (request : OpenAIRequest)
       (project_id mapped_model : String) (image_config : Json),
       cfg.image_config = some image_config →
       transform_openai_request? parse sig inj uuid cfg request project_id mapped_model
         = (innerBeforeImage? parse sig inj cfg request mapped_model).map
             (fun pre => envelopeOf uuid cfg project_id
               (applyImageConfig image_config pre))) ∧
    (∀ (parse : String → Option Json) (sig : Option String) (inj : Json → Json)
       (uuid : String) (cfg : RequestConfig) (request : OpenAIRequest)
       (project_id mapped_model : String) (image_config : Json),
       cfg.image_config = some image_config → cfg.inject_google_search = false →
       ∃ inner g2,
         jpath (transform_openai_request? parse sig inj uuid cfg request project_id mapped_model)
             "request" = some inner ∧
         inner.get? "tools" = none ∧
         inner.get? "systemInstruction" = none ∧
         inner.get? "generationConfig" = some (Json.obj g2) ∧
         lookupL g2 "imageConfig" = some image_config ∧
         lookupL g2 "thinkingConfig" = none ∧
         lookupL g2 "responseMimeType" = none ∧
         lookupL g2 "responseModalities" = none) := by
  have hchar : ∀ (image_config : Json) (kvs g : List (String × Json)),
      lookupL kvs "generationConfig" = some (Json.obj g) →
      (applyImageConfig image_config (Json.obj kvs)).get? "tools" = none ∧
      (applyImageConfig image_config (Json.obj kvs)).get? "systemInstruction" = none ∧
      (∃ g2, (applyImageConfig image_config (Json.obj kvs)).get? "generationConfig"
          = some (Json.obj g2) ∧
        lookupL g2 "imageConfig" = some image_config ∧
        lookupL g2 "thinkingConfig" = none ∧
        lookupL g2 "responseMimeType" = none ∧
        lookupL g2 "responseModalities" = none ∧
        (∀ k, k ≠ "thinkingConfig" → k ≠ "responseMimeType" → k ≠ "responseModalities" →
          k ≠ "imageConfig" → lookupL g2 k = lookupL g k)) ∧
      (∀ k, k ≠ "tools" → k ≠ "systemInstruction" → k ≠ "generationConfig" →
        (applyImageConfig image_config (Json.obj kvs)).get? k = lookupL kvs k) := by
    intro ic kvs g h
    have hB : lookupL (removeKeyL (removeKeyL kvs "tools") "systemInstruction")
        "generationConfig" = some (Json.obj g) := by
      rw [lookupL_removeKeyL_ne _ _ _ (by decide), lookupL_removeKeyL_ne _ _ _ (by decide)]
      exact h
    have happ : applyImageConfig ic (Json.obj kvs)
        = Json.obj (mapValAt (removeKeyL (removeKeyL kvs "tools") "systemInstruction")
            "generationConfig" (cleanGenConfigVal ic)) := by
      simp only [applyImageConfig]
      rw [hB]
      simp
    refine ⟨?_, ?_,
      ⟨objInsertL (removeKeyL (removeKeyL (removeKeyL g "thinkingConfig") "responseMimeType")
          "responseModalities") "imageConfig" ic, ?_, ?_, ?_, ?_, ?_, ?_⟩, ?_⟩
    · rw [happ]
      simp only [Json.get?]
      rw [lookupL_mapValAt_ne _ _ _ _ (by decide), lookupL_removeKeyL_ne _ _ _ (by decide)]
      exact lookupL_removeKeyL_self kvs "tools"
    · rw [happ]
      simp only [Json.get?]
      rw [lookupL_mapValAt_ne _ _ _ _ (by decide)]
      exact lookupL_removeKeyL_self _ "systemInstruction"
    · rw [happ]
      simp only [Json.get?]
      rw [lookupL_mapValAt_self, hB]
      simp [cleanGenConfigVal]
    · exact lookupL_objInsertL_self _ _ _
    · rw [lookupL_objInsertL_ne _ _ _ _ (by decide),
        lookupL_removeKeyL_ne _ _ _ (by decide), lookupL_removeKeyL_ne _ _ _ (by decide)]
      exact lookupL_removeKeyL_self g "thinkingConfig"
    · rw [lookupL_objInsertL_ne _ _ _ _ (by decide),
        lookupL_removeKeyL_ne _ _ _ (by decide)]
      exact lookupL_removeKeyL_self _ "responseMimeType"
    · rw [lookupL_objInsertL_ne _ _ _ _ (by decide)]
      exact lookupL_removeKeyL_self _ "responseModalities"
    · intro k h1 h2 h3 h4
      rw [lookupL_objInsertL_ne _ _ _ _ (Ne.symm h4),
        lookupL_removeKeyL_ne _ _ _ (Ne.symm h3), lookupL_removeKeyL_ne _ _ _ (Ne.symm h2),
        lookupL_removeKeyL_ne _ _ _ (Ne.symm h1)]
    · intro k h1 h2 h3
      rw [happ]
      simp only [Json.get?]
      rw [lookupL_mapValAt_ne _ _ _ _ (Ne.symm h3),
        lookupL_removeKeyL_ne _ _ _ (Ne.symm h2), lookupL_removeKeyL_ne _ _ _ (Ne.symm h1)]
  have hcomp : ∀ (parse : String → Option Json) (sig : Option String) (inj : Json → Json)
      (uuid : String) (cfg : RequestConfig) (request : OpenAIRequest)
      (project_id mapped_model : String) (image_config : Json),
      cfg.image_config = some image_config →
      transform_openai_request? parse sig inj uuid cfg request project_id mapped_model
        = (innerBeforeImage? parse sig inj cfg request mapped_model).map
            (fun pre => envelopeOf uuid cfg project_id
              (applyImageConfig image_config pre)) := by
    intro parse sig inj uuid cfg request project_id mapped_model ic himg
    simp only [transform_openai_request?, innerRequest?, himg, Option.map_map]
    rfl
  refine ⟨hchar, hcomp, ?_⟩
  intro parse sig inj uuid cfg request project_id mapped_model ic h1 h2
  obtain ⟨kvs, hpre, hgc⟩ := innerBeforeImage?_shape parse sig inj cfg request mapped_model h2
  obtain ⟨htools, hsys, ⟨g2, hg2eq, hic, hthink, hmime, hmodal, _⟩, _⟩ :=
    hchar ic kvs
      [("maxOutputTokens", Json.num ((request.max_tokens.getD 8192 : Nat) : Rat)),
       ("temperature", Json.num (request.temperature.getD 1)),
       ("topP", Json.num (request.top_p.getD 1))] hgc
  refine ⟨applyImageConfig ic (Json.obj kvs), g2, ?_, htools, hsys, hg2eq, hic, hthink,
    hmime, hmodal⟩
  rw [hcomp parse sig inj uuid cfg request project_id mapped_model ic h1]
  rw [jpath, hpre]
  simp [envelopeOf, Json.get?, lookupL]

/-- Witness for C9: a concrete inner request with a `generationConfig`
object loses its `tools` and `systemInstruction` keys under the
image-config post-processing. -/
theorem c9_image_stripping_witness :
    (applyImageConfig (Json.obj [("x", Json.num 1)])
        (Json.obj [("generationConfig", Json.obj [])])).get? "tools" = none ∧
    (applyImageConfig (Json.obj [("x", Json.num 1)])
        (Json.obj [("generationConfig", Json.obj [])])).get? "systemInstruction" = none := by
  have h := c9_image_stripping.1 (Json.obj [("x", Json.num 1)])
    [("generationConfig", Json.obj [])] [] rfl
  exact ⟨h.1, h.2.1⟩
